import Mathlib

set_option maxHeartbeats 1000000

/-!
Verification of the decision pipeline in `src/local-model/A.py`.

The embedding models Python JSON values as the inductive type `JVal` and
Python dictionaries (which keep insertion order and have unique keys) as
ordered association lists (`JObj`).  External collaborators of the code
under verification are passed in as explicit parameters:

* `json.loads` (the standard-library JSON parser) is a parameter
  `loads : List Char → Except String JVal`; a thrown exception is the
  `Except.error` case, carrying the exception message `str(e)`.
* the llama generator is a parameter `gen : Nat → List Char` giving the raw
  text returned by the model on the i-th call;
* `subprocess.run` is a parameter `run : String → RunOutcome`.

Everything else is translated directly from the Python source.
-/

/-- A Python/JSON value: `None`, `bool`, number, `str`, `list`, `dict`. -/
inductive JVal where
  | null
  | bool (b : Bool)
  | num (n : Int)
  | str (s : String)
  | arr (elems : List JVal)
  | obj (fields : List (String × JVal))

/-- A Python dict with string keys: ordered list of key/value pairs,
keys unique (`keysNodup`). -/
abbrev JObj := List (String × JVal)

/-- `d.get(key)` for a Python dict: first (and with unique keys, only)
binding of `key`. -/
def jlookup : JObj → String → Option JVal
  | [], _ => none
  | (k, v) :: rest, key => if k = key then some v else jlookup rest key

/-- `d[key] = v` for a Python dict: update the binding in place when the
key exists (keeping its position), append a new binding otherwise. -/
def jset : JObj → String → JVal → JObj
  | [], key, v => [(key, v)]
  | (k, w) :: rest, key, v =>
    if k = key then (key, v) :: rest else (k, w) :: jset rest key v

/-- `d.setdefault(key, v)`: insert only when the key is absent. -/
def jsetdefault (d : JObj) (key : String) (v : JVal) : JObj :=
  if (jlookup d key).isSome then d else d ++ [(key, v)]

/-- Field access on a `JVal` that is expected to be an object. -/
def jfield (j : JVal) (key : String) : Option JVal :=
  match j with
  | .obj d => jlookup d key
  | _ => none

/-- The keys of a Python dict are pairwise distinct. -/
def keysNodup (d : JObj) : Prop := (d.map Prod.fst).Nodup

/-- `isinstance(x, dict)`. -/
def isObj : JVal → Bool
  | .obj _ => true
  | _ => false

/-- The opening curly brace character. -/
def lcurly : Char := Char.ofNat 123

/-- The closing curly brace character. -/
def rcurly : Char := Char.ofNat 125

/-- Whether a character matches the regular expression `[\{\[]` used by
`extract_json_from_text` to find candidate start positions. -/
def isOpener (c : Char) : Bool := c == lcurly || c == '['

/-- The `pairs` table of `extract_json_from_text`: matching closer for an
opening bracket character. -/
def closerFor (c : Char) : Char := if c == lcurly then rcurly else ']'

/-- The inner loop of `extract_json_from_text`: starting from a candidate
start position, walk forward keeping a stack of expected closers; push the
matching closer on each opener, pop when the current character equals the
top of the stack.  Returns the length of the span at which the stack first
becomes empty, or `none` if it never does.  `n` counts the characters
already consumed. -/
def balanceWalk : List Char → List Char → Nat → Option Nat
  | _, [], _ => none
  | stack, c :: rest, n =>
    if isOpener c then balanceWalk (closerFor c :: stack) rest (n + 1)
    else
      match stack with
      | [] => balanceWalk [] rest (n + 1)
      | top :: srest =>
        if c == top then
          match srest with
          | [] => some (n + 1)
          | _ :: _ => balanceWalk srest rest (n + 1)
        else balanceWalk (top :: srest) rest (n + 1)

/-- One candidate start position of `extract_json_from_text`: if the text
starts with `{` or `[` and the stack walk finds a balanced closure, try
`json.loads` on the span `s[start:i+1]`; a parse failure abandons this
candidate (`break` in the source). -/
def candParse (loads : List Char → Except String JVal) (cs : List Char) : Option JVal :=
  match cs with
  | [] => none
  | c :: _ =>
    if isOpener c then
      match balanceWalk [] cs 0 with
      | some len =>
        match loads (cs.take len) with
        | .ok v => some v
        | .error _ => none
      | none => none
    else none

/-- `extract_json_from_text(s)`: try every start position left to right
(positions whose character is not `{` or `[` are skipped, matching the
regex scan of the source), returning the first candidate whose balanced
span parses; `None` when no candidate parses. -/
def extract_json_from_text (loads : List Char → Except String JVal) :
    List Char → Option JVal
  | [] => none
  | c :: rest =>
    match candParse loads (c :: rest) with
    | some v => some v
    | none => extract_json_from_text loads rest

/-- The `banned` list of `is_safe_command`, in source order. -/
def bannedList : List String :=
  ["&&", "|", ";", ">", "<", "$", "`", "rm ", "del ", "shutdown", "format"]

/-- Python substring test `sub in s` on character lists. -/
def listContainsSub (sub : List Char) : List Char → Bool
  | [] => sub.isEmpty
  | c :: rest => sub.isPrefixOf (c :: rest) || listContainsSub sub rest

/-- `is_safe_command(command)`.  The argument is `none` for Python `None`
(then `not command` is true and the function returns `False`). -/
def is_safe_command : Option String → Bool
  | none => false
  | some cmd =>
    if cmd.length = 0 ∨ 200 < cmd.length then false
    else !(bannedList.any (fun b => listContainsSub b.data cmd.data))

/-- Python whitespace characters stripped by `str.strip` (ASCII part). -/
def isPySpace (c : Char) : Bool :=
  c == ' ' || c == '\t' || c == '\n' || c == '\r' || c == '\x0b' || c == '\x0c'

/-- Truthiness of `s.strip()`: the string has at least one
non-whitespace character. -/
def strip_nonempty (s : String) : Bool := s.data.any (fun c => !(isPySpace c))

/-- The canonical key set `schema_keys` of `_coerce_agent_json`. -/
def schema_keys : List String := ["plan", "action", "expose_to_user", "data", "command"]

/-- The filter `k not in schema_keys` used to build the synthesized
`data` payload. -/
def nonschema (p : String × JVal) : Bool := !(schema_keys.contains p.1)

/-- An abstract rendering of Python `str(type(x))`, used as the `detail`
of the `invalid_json_type` error. -/
def pyTypeName : JVal → String
  | .null => "NoneType"
  | .bool _ => "bool"
  | .num _ => "int"
  | .str _ => "str"
  | .arr _ => "list"
  | .obj _ => "dict"

/-- The test `action in ("answer", "command")`. -/
def actionValid (a : Option JVal) : Bool :=
  match a with
  | some (.str s) => s == "answer" || s == "command"
  | _ => false

/-- The test `isinstance(cmd, str) and cmd.strip()` used for action
inference. -/
def cmdNonblank (v : Option JVal) : Bool :=
  match v with
  | some (.str s) => strip_nonempty s
  | _ => false

/-- Python `v == s` for a string literal `s` against an arbitrary value. -/
def isStrEq (v : Option JVal) (s : String) : Bool :=
  match v with
  | some (.str t) => t == s
  | _ => false

/-- The test `"data" not in coerced or coerced.get("data") is None`. -/
def isNullish (v : Option JVal) : Bool :=
  match v with
  | none => true
  | some .null => true
  | _ => false

/-- Step `if not isinstance(coerced.get("plan"), list): coerced["plan"] = []`. -/
def coercePlan (d : JObj) : JObj :=
  match jlookup d "plan" with
  | some (.arr _) => d
  | _ => jset d "plan" (JVal.arr [])

/-- Step inferring `action` when it is not exactly `"answer"` or
`"command"`: `"command"` if `command` is a non-empty string, else
`"answer"`. -/
def inferAction (d : JObj) : JObj :=
  if actionValid (jlookup d "action") then d
  else if cmdNonblank (jlookup d "command") then jset d "action" (JVal.str "command")
  else jset d "action" (JVal.str "answer")

/-- Step `if not isinstance(coerced.get("expose_to_user"), bool):
coerced["expose_to_user"] = True`. -/
def coerceExpose (d : JObj) : JObj :=
  match jlookup d "expose_to_user" with
  | some (.bool _) => d
  | _ => jset d "expose_to_user" (JVal.bool true)

/-- The final branch of `_coerce_agent_json` on the resolved action.
`orig` is the original `agent_json` (the payload comprehension iterates
over `agent_json.items()`, not over `coerced`). -/
def coerceBranch (orig d : JObj) : JObj :=
  if isStrEq (jlookup d "action") "command" then
    jsetdefault
      (match jlookup d "command" with
        | some (.str _) => d
        | _ => jset d "command" JVal.null)
      "data" JVal.null
  else
    jsetdefault
      (if isNullish (jlookup d "data") then
        jset d "data"
          (if (orig.filter nonschema).isEmpty then (jlookup d "data").getD JVal.null
           else JVal.obj (orig.filter nonschema))
       else d)
      "command" JVal.null

/-- The first three normalization steps of `_coerce_agent_json`
(`plan`, `action`, `expose_to_user`), applied in source order. -/
def preChain (d : JObj) : JObj := coerceExpose (inferAction (coercePlan d))

/-- `_coerce_agent_json(agent_json)`.  A non-dict argument yields the
`invalid_json_type` error object; a dict carrying an `error` key is
returned unchanged; otherwise the normalization chain runs. -/
def _coerce_agent_json (j : JVal) : JVal :=
  match j with
  | .obj d =>
    if (jlookup d "error").isSome then JVal.obj d
    else JVal.obj (coerceBranch d (preChain d))
  | _ => JVal.obj [("error", JVal.str "invalid_json_type"), ("detail", JVal.str (pyTypeName j))]

/-- Outcome of the external `subprocess.run` call: normal completion with
exit code and captured streams, or a raised exception with message. -/
inductive RunOutcome where
  | finished (returncode : Int) (stdout stderr : String)
  | raised (msg : String)

/-- `execute_command(command)` with the process backend `run` passed
explicitly.  The argument is `none` for Python `None`. -/
def execute_command (run : String → RunOutcome) (command : Option String) : JVal :=
  if !(is_safe_command command) then
    JVal.obj [("status", JVal.str "rejected"), ("reason", JVal.str "unsafe command")]
  else
    match command with
    | none => JVal.obj [("status", JVal.str "rejected"), ("reason", JVal.str "missing command")]
    | some cmd =>
      if !(strip_nonempty cmd) then
        JVal.obj [("status", JVal.str "rejected"), ("reason", JVal.str "missing command")]
      else
        match run cmd with
        | .finished code out err =>
          JVal.obj [("status", JVal.str "executed"), ("exit_code", JVal.num code),
                    ("stdout", JVal.str out), ("stderr", JVal.str err)]
        | .raised msg => JVal.obj [("status", JVal.str "error"), ("error", JVal.str msg)]

/-- View of the coerced `command` field as the argument of
`execute_command`: after coercion it is a string or `None`
(other shapes never reach the call site). -/
def asOptStr : JVal → Option String
  | .str s => some s
  | _ => none

/-- `process_agent_output(agent_json)` with the process backend passed
explicitly.  `agent_json["plan"]` is modeled with a default that is
unreachable because the coerced object always carries `plan`. -/
def process_agent_output (run : String → RunOutcome) (j : JVal) : JVal :=
  match _coerce_agent_json j with
  | .obj d =>
    if (jlookup d "error").isSome then JVal.obj d
    else
      let base : JObj :=
        [("plan", (jlookup d "plan").getD JVal.null),
         ("expose_to_user", (jlookup d "expose_to_user").getD (JVal.bool false))]
      if isStrEq (jlookup d "action") "command" then
        JVal.obj (base ++ [("execution",
          execute_command run (asOptStr ((jlookup d "command").getD JVal.null)))])
      else if isStrEq (jlookup d "action") "answer" then
        JVal.obj (base ++ [("data", (jlookup d "data").getD JVal.null)])
      else JVal.obj base
  | other => other

/-- The body of the retry loop of `ask_model`: fuel counts the remaining
attempts, `i` is the index of the next generator call, the last argument
is the mutable `last_error`. -/
def askModelLoop (loads : List Char → Except String JVal) (gen : Nat → List Char) :
    Nat → Nat → Option String → JVal
  | 0, _, lastError =>
    JVal.obj [("error", JVal.str "invalid_json"),
              ("detail", match lastError with | some e => JVal.str e | none => JVal.null)]
  | n + 1, i, _ =>
    match loads (gen i) with
    | .ok v => v
    | .error e =>
      match extract_json_from_text loads (gen i) with
      | some v => v
      | none => askModelLoop loads gen n (i + 1) (some e)

/-- `ask_model(prompt, max_retries)` with the generator and parser passed
explicitly; the source default for `max_retries` is 3. -/
def ask_model (loads : List Char → Except String JVal) (gen : Nat → List Char)
    (max_retries : Nat) : JVal :=
  askModelLoop loads gen max_retries 0 none

/-- One attempt of the retry loop: direct parse, then the extractor
fallback; the error carries `str(e)` from the direct parse. -/
def attemptOutcome (loads : List Char → Except String JVal) (raw : List Char) :
    Except String JVal :=
  match loads raw with
  | .ok v => .ok v
  | .error e =>
    match extract_json_from_text loads raw with
    | some v => .ok v
    | none => .error e

/-- A stub process backend used in concrete instances. -/
def stubRun : String → RunOutcome := fun _ => RunOutcome.finished 0 "" ""

/-- A tiny concrete JSON parser used in concrete instances: recognizes
the empty object and the empty array only. -/
def toyLoads : List Char → Except String JVal := fun cs =>
  if cs == [lcurly, rcurly] then .ok (JVal.obj [])
  else if cs == ['[', ']'] then .ok (JVal.arr [])
  else .error "Expecting value"

/-- A concrete generator whose first output is unparseable and whose
second is a bare JSON object. -/
def genSecondTry : Nat → List Char := fun i =>
  if i = 0 then ['n', 'o'] else [lcurly, rcurly]

/-- A concrete generator that always returns unparseable text. -/
def genGarbage : Nat → List Char := fun _ => ['x', 'x']

/-! ### Lemmas about the dictionary operations -/

theorem isSome_false_eq_none {α : Type} {o : Option α} (h : o.isSome = false) : o = none := by
  cases o with
  | none => rfl
  | some a => simp [Option.isSome] at h

theorem jlookup_jset_self (d : JObj) (key : String) (v : JVal) :
    jlookup (jset d key v) key = some v := by
  induction d with
  | nil => simp [jset, jlookup]
  | cons p rest ih =>
    obtain ⟨a, b⟩ := p
    by_cases hk : a = key
    · simp [jset, jlookup, hk]
    · simp [jset, jlookup, hk, ih]

theorem jlookup_jset_ne (d : JObj) (key k : String) (v : JVal) (h : ¬ key = k) :
    jlookup (jset d key v) k = jlookup d k := by
  induction d with
  | nil => simp [jset, jlookup, h]
  | cons p rest ih =>
    obtain ⟨a, b⟩ := p
    by_cases hak : a = key
    · subst hak
      simp [jset, jlookup, h]
    · by_cases hak2 : a = k
      · subst hak2
        simp [jset, jlookup, hak]
      · simp [jset, jlookup, hak, hak2, ih]

theorem jset_self_id (d : JObj) (key : String) (v : JVal)
    (h : jlookup d key = some v) : jset d key v = d := by
  induction d with
  | nil => simp [jlookup] at h
  | cons p rest ih =>
    obtain ⟨a, b⟩ := p
    by_cases hak : a = key
    · subst hak
      simp [jlookup] at h
      simp [jset, h]
    · simp only [jlookup, if_neg hak] at h
      simp [jset, hak, ih h]

theorem jlookup_append_of_isSome (d1 d2 : JObj) (k : String)
    (h : (jlookup d1 k).isSome = true) : jlookup (d1 ++ d2) k = jlookup d1 k := by
  induction d1 with
  | nil => simp [jlookup, Option.isSome] at h
  | cons p rest ih =>
    obtain ⟨a, b⟩ := p
    by_cases hk : a = k
    · simp [jlookup, hk]
    · simp only [jlookup, if_neg hk] at h
      simp [jlookup, hk, ih h]

theorem jlookup_append_of_none (d1 d2 : JObj) (k : String)
    (h : jlookup d1 k = none) : jlookup (d1 ++ d2) k = jlookup d2 k := by
  induction d1 with
  | nil => rfl
  | cons p rest ih =>
    obtain ⟨a, b⟩ := p
    by_cases hk : a = k
    · simp [jlookup, hk] at h
    · simp only [jlookup, if_neg hk] at h
      simp [jlookup, hk, ih h]

theorem jlookup_jsetdefault_ne (d : JObj) (key k : String) (v : JVal) (h : ¬ key = k) :
    jlookup (jsetdefault d key v) k = jlookup d k := by
  unfold jsetdefault
  by_cases hs : (jlookup d key).isSome = true
  · rw [if_pos hs]
  · rw [if_neg hs]
    by_cases hks : (jlookup d k).isSome = true
    · exact jlookup_append_of_isSome d _ k hks
    · have hn : jlookup d k = none := isSome_false_eq_none (by simpa using hks)
      rw [jlookup_append_of_none d _ k hn, hn]
      simp [jlookup, h]

theorem jlookup_jsetdefault_self (d : JObj) (key : String) (v : JVal) :
    jlookup (jsetdefault d key v) key = some ((jlookup d key).getD v) := by
  unfold jsetdefault
  by_cases hs : (jlookup d key).isSome = true
  · rw [if_pos hs]
    obtain ⟨w, hw⟩ := Option.isSome_iff_exists.mp hs
    rw [hw]
    rfl
  · have hn : jlookup d key = none := isSome_false_eq_none (by simpa using hs)
    rw [if_neg hs, jlookup_append_of_none d _ key hn, hn]
    simp [jlookup]

theorem jsetdefault_of_isSome (d : JObj) (key : String) (v : JVal)
    (h : (jlookup d key).isSome = true) : jsetdefault d key v = d := by
  unfold jsetdefault
  rw [if_pos h]

/-! ### Lemmas about the normalization chain -/

theorem coercePlan_cases (d : JObj) :
    coercePlan d = d ∨ coercePlan d = jset d "plan" (JVal.arr []) := by
  unfold coercePlan
  split
  · exact Or.inl rfl
  · exact Or.inr rfl

theorem inferAction_cases (d : JObj) :
    inferAction d = d ∨ inferAction d = jset d "action" (JVal.str "command") ∨
      inferAction d = jset d "action" (JVal.str "answer") := by
  unfold inferAction
  split
  · exact Or.inl rfl
  · split
    · exact Or.inr (Or.inl rfl)
    · exact Or.inr (Or.inr rfl)

theorem coerceExpose_cases (d : JObj) :
    coerceExpose d = d ∨ coerceExpose d = jset d "expose_to_user" (JVal.bool true) := by
  unfold coerceExpose
  split
  · exact Or.inl rfl
  · exact Or.inr rfl

theorem jlookup_coercePlan_ne (d : JObj) (k : String) (h : ¬ "plan" = k) :
    jlookup (coercePlan d) k = jlookup d k := by
  rcases coercePlan_cases d with hc | hc
  · rw [hc]
  · rw [hc, jlookup_jset_ne d _ k _ h]

theorem jlookup_inferAction_ne (d : JObj) (k : String) (h : ¬ "action" = k) :
    jlookup (inferAction d) k = jlookup d k := by
  rcases inferAction_cases d with hc | hc | hc
  · rw [hc]
  · rw [hc, jlookup_jset_ne d _ k _ h]
  · rw [hc, jlookup_jset_ne d _ k _ h]

theorem jlookup_coerceExpose_ne (d : JObj) (k : String) (h : ¬ "expose_to_user" = k) :
    jlookup (coerceExpose d) k = jlookup d k := by
  rcases coerceExpose_cases d with hc | hc
  · rw [hc]
  · rw [hc, jlookup_jset_ne d _ k _ h]

theorem jlookup_preChain_ne (d : JObj) (k : String) (h1 : ¬ "plan" = k)
    (h2 : ¬ "action" = k) (h3 : ¬ "expose_to_user" = k) :
    jlookup (preChain d) k = jlookup d k := by
  unfold preChain
  rw [jlookup_coerceExpose_ne _ _ h3, jlookup_inferAction_ne _ _ h2,
    jlookup_coercePlan_ne _ _ h1]

theorem coercePlan_plan (d : JObj) :
    ∃ xs, jlookup (coercePlan d) "plan" = some (JVal.arr xs) := by
  unfold coercePlan
  split
  · rename_i xs heq
    exact ⟨xs, heq⟩
  · exact ⟨[], jlookup_jset_self d "plan" (JVal.arr [])⟩

theorem inferAction_action (d : JObj) :
    jlookup (inferAction d) "action" = some (JVal.str "answer") ∨
    jlookup (inferAction d) "action" = some (JVal.str "command") := by
  unfold inferAction
  split
  · rename_i hvalid
    unfold actionValid at hvalid
    split at hvalid
    · rename_i s heq
      simp only [Bool.or_eq_true, beq_iff_eq] at hvalid
      rcases hvalid with h | h <;> rw [heq, h]
      · exact Or.inl rfl
      · exact Or.inr rfl
    · exact absurd hvalid (by simp)
  · split
    · exact Or.inr (jlookup_jset_self d "action" (JVal.str "command"))
    · exact Or.inl (jlookup_jset_self d "action" (JVal.str "answer"))

theorem coerceExpose_expose (d : JObj) :
    ∃ b, jlookup (coerceExpose d) "expose_to_user" = some (JVal.bool b) := by
  unfold coerceExpose
  split
  · rename_i b heq
    exact ⟨b, heq⟩
  · exact ⟨true, jlookup_jset_self d "expose_to_user" (JVal.bool true)⟩

theorem preChain_plan (d : JObj) :
    ∃ xs, jlookup (preChain d) "plan" = some (JVal.arr xs) := by
  obtain ⟨xs, hx⟩ := coercePlan_plan d
  refine ⟨xs, ?_⟩
  unfold preChain
  rw [jlookup_coerceExpose_ne _ _ (by decide), jlookup_inferAction_ne _ _ (by decide), hx]

theorem preChain_action (d : JObj) :
    jlookup (preChain d) "action" = some (JVal.str "answer") ∨
    jlookup (preChain d) "action" = some (JVal.str "command") := by
  unfold preChain
  rcases inferAction_action (coercePlan d) with h | h
  · exact Or.inl (by rw [jlookup_coerceExpose_ne _ _ (by decide)]; exact h)
  · exact Or.inr (by rw [jlookup_coerceExpose_ne _ _ (by decide)]; exact h)

theorem preChain_expose (d : JObj) :
    ∃ b, jlookup (preChain d) "expose_to_user" = some (JVal.bool b) := by
  unfold preChain
  exact coerceExpose_expose (inferAction (coercePlan d))

theorem filter_jset_schema (d : JObj) (key : String) (v : JVal)
    (hk : schema_keys.contains key = true) :
    (jset d key v).filter nonschema = d.filter nonschema := by
  have hkv : ∀ w : JVal, nonschema (key, w) = false := by
    intro w
    show (!(schema_keys.contains key)) = false
    rw [hk]
    rfl
  induction d with
  | nil => simp [jset, List.filter_cons, hkv]
  | cons p rest ih =>
    obtain ⟨a, b⟩ := p
    by_cases hak : a = key
    · subst hak
      simp [jset, List.filter_cons, hkv]
    · simp only [jset, if_neg hak, List.filter_cons]
      rw [ih]

theorem filter_jsetdefault_schema (d : JObj) (key : String) (v : JVal)
    (hk : schema_keys.contains key = true) :
    (jsetdefault d key v).filter nonschema = d.filter nonschema := by
  have hkv : nonschema (key, v) = false := by
    show (!(schema_keys.contains key)) = false
    rw [hk]
    rfl
  unfold jsetdefault
  split
  · rfl
  · rw [List.filter_append]
    simp [List.filter_cons, hkv]

theorem filter_coercePlan (d : JObj) :
    (coercePlan d).filter nonschema = d.filter nonschema := by
  rcases coercePlan_cases d with hc | hc
  · rw [hc]
  · rw [hc, filter_jset_schema d _ _ (by decide)]

theorem filter_inferAction (d : JObj) :
    (inferAction d).filter nonschema = d.filter nonschema := by
  rcases inferAction_cases d with hc | hc | hc
  · rw [hc]
  · rw [hc, filter_jset_schema d _ _ (by decide)]
  · rw [hc, filter_jset_schema d _ _ (by decide)]

theorem filter_coerceExpose (d : JObj) :
    (coerceExpose d).filter nonschema = d.filter nonschema := by
  rcases coerceExpose_cases d with hc | hc
  · rw [hc]
  · rw [hc, filter_jset_schema d _ _ (by decide)]

theorem filter_preChain (d : JObj) :
    (preChain d).filter nonschema = d.filter nonschema := by
  unfold preChain
  rw [filter_coerceExpose, filter_inferAction, filter_coercePlan]

theorem isNullish_some_false (v : JVal) (hv : ¬ v = JVal.null) :
    isNullish (some v) = false := by
  cases v with
  | null => exact absurd rfl hv
  | bool b => rfl
  | num n => rfl
  | str s => rfl
  | arr xs => rfl
  | obj d => rfl

theorem isNullish_false {o : Option JVal} (h : isNullish o = false) :
    ∃ v, o = some v ∧ ¬ v = JVal.null := by
  cases o with
  | none => simp [isNullish] at h
  | some v =>
    cases v with
    | null => simp [isNullish] at h
    | bool b => exact ⟨JVal.bool b, rfl, fun hc => JVal.noConfusion hc⟩
    | num n => exact ⟨JVal.num n, rfl, fun hc => JVal.noConfusion hc⟩
    | str s => exact ⟨JVal.str s, rfl, fun hc => JVal.noConfusion hc⟩
    | arr xs => exact ⟨JVal.arr xs, rfl, fun hc => JVal.noConfusion hc⟩
    | obj d2 => exact ⟨JVal.obj d2, rfl, fun hc => JVal.noConfusion hc⟩

/-- The canonical shape produced by the no-error path of
`_coerce_agent_json`: no `error` key, `plan` a list, `expose_to_user` a
boolean, `action` one of the two recognized strings, `data` and `command`
both present, with the branch conditions `_coerce_agent_json` leaves
behind (these make the normalizer the identity on its own output). -/
def Canon (e : JObj) : Prop :=
  jlookup e "error" = none ∧
  (∃ xs, jlookup e "plan" = some (JVal.arr xs)) ∧
  (∃ b, jlookup e "expose_to_user" = some (JVal.bool b)) ∧
  ((jlookup e "action" = some (JVal.str "answer") ∧
      (jlookup e "command").isSome = true ∧
      ∃ v, jlookup e "data" = some v ∧ (v = JVal.null → e.filter nonschema = [])) ∨
   (jlookup e "action" = some (JVal.str "command") ∧
      ((∃ s, jlookup e "command" = some (JVal.str s)) ∨
        jlookup e "command" = some JVal.null) ∧
      (jlookup e "data").isSome = true))

theorem coerce_obj_eq (d : JObj) (herr : (jlookup d "error").isSome = false) :
    _coerce_agent_json (JVal.obj d) = JVal.obj (coerceBranch d (preChain d)) := by
  unfold _coerce_agent_json
  simp [herr]

theorem coerce_canon (d : JObj) (herr : jlookup d "error" = none) :
    Canon (coerceBranch d (preChain d)) := by
  obtain ⟨xs, hplan⟩ := preChain_plan d
  obtain ⟨b, hexp⟩ := preChain_expose d
  have hfilt := filter_preChain d
  have herrw : jlookup (preChain d) "error" = none := by
    rw [jlookup_preChain_ne d "error" (by decide) (by decide) (by decide)]
    exact herr
  rcases preChain_action d with hact | hact
  · -- resolved action is "answer"
    unfold coerceBranch
    split
    · rename_i hT
      rw [hact] at hT
      exact absurd hT (by decide)
    · by_cases hdn : isNullish (jlookup (preChain d) "data") = true
      · rw [if_pos hdn]
        refine ⟨?_, ⟨xs, ?_⟩, ⟨b, ?_⟩, Or.inl ⟨?_, ?_, ?_⟩⟩
        · rw [jlookup_jsetdefault_ne _ _ _ _ (by decide),
            jlookup_jset_ne _ _ _ _ (by decide), herrw]
        · rw [jlookup_jsetdefault_ne _ _ _ _ (by decide),
            jlookup_jset_ne _ _ _ _ (by decide), hplan]
        · rw [jlookup_jsetdefault_ne _ _ _ _ (by decide),
            jlookup_jset_ne _ _ _ _ (by decide), hexp]
        · rw [jlookup_jsetdefault_ne _ _ _ _ (by decide),
            jlookup_jset_ne _ _ _ _ (by decide), hact]
        · rw [jlookup_jsetdefault_self]
          rfl
        · refine ⟨_, by rw [jlookup_jsetdefault_ne _ _ _ _ (by decide),
            jlookup_jset_self], ?_⟩
          intro hnull
          by_cases hpe : (d.filter nonschema).isEmpty = true
          · rw [filter_jsetdefault_schema _ _ _ (by decide),
              filter_jset_schema _ _ _ (by decide), hfilt]
            exact List.isEmpty_iff.mp hpe
          · rw [if_neg hpe] at hnull
            exact absurd hnull (fun hc => JVal.noConfusion hc)
      · have hdn2 : isNullish (jlookup (preChain d) "data") = false := by
          cases h2 : isNullish (jlookup (preChain d) "data")
          · rfl
          · exact absurd h2 hdn
        obtain ⟨v, hv, hvn⟩ := isNullish_false hdn2
        rw [if_neg hdn]
        refine ⟨?_, ⟨xs, ?_⟩, ⟨b, ?_⟩, Or.inl ⟨?_, ?_, ?_⟩⟩
        · rw [jlookup_jsetdefault_ne _ _ _ _ (by decide), herrw]
        · rw [jlookup_jsetdefault_ne _ _ _ _ (by decide), hplan]
        · rw [jlookup_jsetdefault_ne _ _ _ _ (by decide), hexp]
        · rw [jlookup_jsetdefault_ne _ _ _ _ (by decide), hact]
        · rw [jlookup_jsetdefault_self]
          rfl
        · exact ⟨v, by rw [jlookup_jsetdefault_ne _ _ _ _ (by decide), hv],
            fun hc => absurd hc hvn⟩
  · -- resolved action is "command"
    unfold coerceBranch
    split
    · split
      · rename_i s heq
        refine ⟨?_, ⟨xs, ?_⟩, ⟨b, ?_⟩, Or.inr ⟨?_, ?_, ?_⟩⟩
        · rw [jlookup_jsetdefault_ne _ _ _ _ (by decide), herrw]
        · rw [jlookup_jsetdefault_ne _ _ _ _ (by decide), hplan]
        · rw [jlookup_jsetdefault_ne _ _ _ _ (by decide), hexp]
        · rw [jlookup_jsetdefault_ne _ _ _ _ (by decide), hact]
        · exact Or.inl ⟨s, by rw [jlookup_jsetdefault_ne _ _ _ _ (by decide), heq]⟩
        · rw [jlookup_jsetdefault_self]
          rfl
      · refine ⟨?_, ⟨xs, ?_⟩, ⟨b, ?_⟩, Or.inr ⟨?_, ?_, ?_⟩⟩
        · rw [jlookup_jsetdefault_ne _ _ _ _ (by decide),
            jlookup_jset_ne _ _ _ _ (by decide), herrw]
        · rw [jlookup_jsetdefault_ne _ _ _ _ (by decide),
            jlookup_jset_ne _ _ _ _ (by decide), hplan]
        · rw [jlookup_jsetdefault_ne _ _ _ _ (by decide),
            jlookup_jset_ne _ _ _ _ (by decide), hexp]
        · rw [jlookup_jsetdefault_ne _ _ _ _ (by decide),
            jlookup_jset_ne _ _ _ _ (by decide), hact]
        · exact Or.inr (by rw [jlookup_jsetdefault_ne _ _ _ _ (by decide),
            jlookup_jset_self])
        · rw [jlookup_jsetdefault_self]
          rfl
    · rename_i hF
      rw [hact] at hF
      exact absurd hF (by decide)

theorem coerce_canon_fix (e : JObj) (h : Canon e) :
    _coerce_agent_json (JVal.obj e) = JVal.obj e := by
  obtain ⟨herr, ⟨xs, hplan⟩, ⟨b, hexp⟩, hbr⟩ := h
  have herrb : (jlookup e "error").isSome = false := by
    rw [herr]
    rfl
  rw [coerce_obj_eq e herrb]
  have hact2 : jlookup e "action" = some (JVal.str "answer") ∨
      jlookup e "action" = some (JVal.str "command") := by
    rcases hbr with ⟨ha, _⟩ | ⟨ha, _⟩
    · exact Or.inl ha
    · exact Or.inr ha
  have h1 : coercePlan e = e := by
    unfold coercePlan
    rw [hplan]
  have h2 : inferAction e = e := by
    unfold inferAction
    rcases hact2 with ha | ha <;> rw [ha] <;> rfl
  have h3 : coerceExpose e = e := by
    unfold coerceExpose
    rw [hexp]
  have hpre : preChain e = e := by
    unfold preChain
    rw [h1, h2, h3]
  rw [hpre]
  congr 1
  rcases hbr with ⟨hact, hcmd, v, hdata, hnf⟩ | ⟨hact, hcmd, hdata⟩
  · -- canonical answer decision
    unfold coerceBranch
    split
    · rename_i hT
      rw [hact] at hT
      exact absurd hT (by decide)
    · rw [hdata]
      by_cases hv : v = JVal.null
      · subst hv
        rw [if_pos (show isNullish (some JVal.null) = true from rfl)]
        have hp : e.filter nonschema = [] := hnf rfl
        rw [hp]
        have hj : jset e "data"
            (if (List.isEmpty ([] : JObj)) then (some JVal.null).getD JVal.null
             else JVal.obj ([] : JObj)) = e := jset_self_id e "data" _ hdata
        rw [hj]
        exact jsetdefault_of_isSome e "command" JVal.null hcmd
      · rw [if_neg (by rw [isNullish_some_false v hv]; exact Bool.false_ne_true)]
        exact jsetdefault_of_isSome e "command" JVal.null hcmd
  · -- canonical command decision
    unfold coerceBranch
    split
    · rcases hcmd with ⟨s, hc⟩ | hc
      · rw [hc]
        exact jsetdefault_of_isSome e "data" JVal.null hdata
      · rw [hc]
        have hj : jset e "command" JVal.null = e := jset_self_id e "command" JVal.null hc
        rw [hj]
        exact jsetdefault_of_isSome e "data" JVal.null hdata
    · rename_i hF
      rw [hact] at hF
      exact absurd hF (by decide)

/-! ### Lemmas about the extractor -/

theorem extract_pos_aux (loads : List Char → Except String JVal) (s : List Char) :
    ∀ (k : Nat) (v : JVal),
      candParse loads (s.drop k) = some v →
      (∀ j, j < s.length → (candParse loads (s.drop j)).isSome = true → j = k) →
      extract_json_from_text loads s = some v := by
  induction s with
  | nil =>
    intro k v hk _
    rw [List.drop_nil] at hk
    simp [candParse] at hk
  | cons c rest ih =>
    intro k v hk huniq
    cases k with
    | zero =>
      rw [List.drop_zero] at hk
      unfold extract_json_from_text
      rw [hk]
    | succ k2 =>
      rw [List.drop_succ_cons] at hk
      have hnone : candParse loads (c :: rest) = none := by
        cases hcp : candParse loads (c :: rest) with
        | none => rfl
        | some w =>
          have h0 : (0 : Nat) = k2 + 1 := by
            refine huniq 0 (by simp) ?_
            rw [List.drop_zero, hcp]
            rfl
          exact absurd h0 (by omega)
      unfold extract_json_from_text
      rw [hnone]
      refine ih k2 v hk ?_
      intro j hj hs
      have hj2 : j + 1 = k2 + 1 := by
        refine huniq (j + 1) (by simpa using Nat.succ_lt_succ hj) ?_
        rw [List.drop_succ_cons]
        exact hs
      omega

theorem extract_neg_aux (loads : List Char → Except String JVal) (s : List Char)
    (h : ∀ j, j < s.length → candParse loads (s.drop j) = none) :
    extract_json_from_text loads s = none := by
  induction s with
  | nil => rfl
  | cons c rest ih =>
    unfold extract_json_from_text
    have h0 : candParse loads (c :: rest) = none := by
      have := h 0 (by simp)
      rwa [List.drop_zero] at this
    rw [h0]
    refine ih ?_
    intro j hj
    have := h (j + 1) (by simpa using Nat.succ_lt_succ hj)
    rwa [List.drop_succ_cons] at this

/-! ### The claims -/

/-- Claim C3: for every string containing exactly one balanced,
validly-parseable bracketed span among arbitrary prose,
`extract_json_from_text` returns the parsed value of that span; and for
every string with no balanced span, or with only spans that fail to
parse, it returns `None`.  A "balanced span" at position `k` is the first
stack-balanced closure found from a `{`/`[` at `k` (`candParse`), exactly
the candidates the source tries. -/
theorem extractor_unique_span (loads : List Char → Except String JVal) :
    (∀ (s : List Char) (k : Nat) (v : JVal),
      candParse loads (s.drop k) = some v →
      (∀ j, j < s.length → (candParse loads (s.drop j)).isSome = true → j = k) →
      extract_json_from_text loads s = some v) ∧
    (∀ s : List Char,
      (∀ j, j < s.length → candParse loads (s.drop j) = none) →
      extract_json_from_text loads s = none) := by
  constructor
  · intro s k v hk huniq
    exact extract_pos_aux loads s k v hk huniq
  · intro s h
    exact extract_neg_aux loads s h

/-- Witness for C3 at concrete inputs: the text `ab{}cd` holds exactly one
balanced parseable span and extraction recovers it; `no json` has no
bracketed span at all. -/
theorem extractor_unique_span_witness :
    extract_json_from_text toyLoads ("ab".data ++ [lcurly, rcurly] ++ "cd".data) =
      some (JVal.obj []) ∧
    extract_json_from_text toyLoads ("no json".data) = none := by
  constructor
  · exact (extractor_unique_span toyLoads).1 ("ab".data ++ [lcurly, rcurly] ++ "cd".data)
      2 (JVal.obj []) rfl (by decide)
  · refine (extractor_unique_span toyLoads).2 ("no json".data) ?_
    intro j hj
    have hj7 : j < 7 := by simpa using hj
    interval_cases j <;> rfl

/-- Claim C4: the safety gate rejects `None`, the empty command, commands
longer than 200 characters, and any command containing one of the
chaining/redirection/substitution substrings; it accepts the plain
commands `dir` and `echo hello`. -/
theorem safety_gate_policy :
    is_safe_command none = false ∧
    (∀ cmd : String,
      cmd = "" ∨ 200 < cmd.length ∨
        (∃ b ∈ [";", "|", "&&", ">", "<", "`", "$"], listContainsSub b.data cmd.data = true) →
      is_safe_command (some cmd) = false) ∧
    is_safe_command (some "dir") = true ∧
    is_safe_command (some "echo hello") = true := by
  refine ⟨rfl, ?_, by decide, by decide⟩
  intro cmd h
  simp only [is_safe_command]
  rcases h with rfl | h | ⟨b, hb, hsub⟩
  · decide
  · rw [if_pos (Or.inr h)]
  · by_cases hlen : cmd.length = 0 ∨ 200 < cmd.length
    · rw [if_pos hlen]
    · rw [if_neg hlen]
      have hbmem : b ∈ bannedList := by
        fin_cases hb <;> decide
      have hany : bannedList.any (fun x => listContainsSub x.data cmd.data) = true :=
        List.any_eq_true.mpr ⟨b, hbmem, hsub⟩
      rw [hany]
      rfl

/-- Witness for C4 at concrete inputs. -/
theorem safety_gate_policy_witness :
    is_safe_command (some "echo a;b") = false ∧ is_safe_command (some "dir") = true := by
  constructor
  · exact safety_gate_policy.2.1 "echo a;b"
      (Or.inr (Or.inr ⟨";", by decide, by decide⟩))
  · exact safety_gate_policy.2.2.1

/-- Claim C9: the denylist match is an exact, case-sensitive substring
test, so `rm-rf /`, `RM -rf /` and `DEL file` are accepted, while the
exact lowercase forms `rm `, `del `, `shutdown`, `format` are blocked. -/
theorem safety_gate_case_sensitive :
    is_safe_command (some "rm-rf /") = true ∧
    is_safe_command (some "RM -rf /") = true ∧
    is_safe_command (some "DEL file") = true ∧
    is_safe_command (some "rm -rf /") = false ∧
    is_safe_command (some "del file") = false ∧
    is_safe_command (some "shutdown now") = false ∧
    is_safe_command (some "format c") = false := by
  refine ⟨by decide, by decide, by decide, by decide, by decide, by decide, by decide⟩

/-- Claim C6: `_coerce_agent_json` is total.  A non-dict input yields the
`invalid_json_type` error with the observed type as detail; a dict
carrying an `error` key is returned unchanged; every other dict yields a
fully populated canonical decision: `plan` a list, `action` one of
`answer`/`command`, `expose_to_user` a boolean, `data` and `command` both
present. -/
theorem coerce_total (j : JVal) :
    (isObj j = false →
      _coerce_agent_json j =
        JVal.obj [("error", JVal.str "invalid_json_type"),
                  ("detail", JVal.str (pyTypeName j))]) ∧
    (∀ d : JObj, j = JVal.obj d → (jlookup d "error").isSome = true →
      _coerce_agent_json j = JVal.obj d) ∧
    (∀ d : JObj, j = JVal.obj d → (jlookup d "error").isSome = false →
      ∃ e : JObj, _coerce_agent_json j = JVal.obj e ∧
        (∃ xs, jlookup e "plan" = some (JVal.arr xs)) ∧
        (jlookup e "action" = some (JVal.str "answer") ∨
          jlookup e "action" = some (JVal.str "command")) ∧
        (∃ b, jlookup e "expose_to_user" = some (JVal.bool b)) ∧
        (jlookup e "data").isSome = true ∧
        (jlookup e "command").isSome = true) := by
  refine ⟨?_, ?_, ?_⟩
  · intro hobj
    cases j <;> first | rfl | simp [isObj] at hobj
  · intro d hd herr
    subst hd
    simp [_coerce_agent_json, herr]
  · intro d hd herr
    subst hd
    rw [coerce_obj_eq d herr]
    obtain ⟨he, hp, hx, hbr⟩ := coerce_canon d (isSome_false_eq_none herr)
    refine ⟨coerceBranch d (preChain d), rfl, hp, ?_, hx, ?_, ?_⟩
    · rcases hbr with ⟨ha, _⟩ | ⟨ha, _⟩
      · exact Or.inl ha
      · exact Or.inr ha
    · rcases hbr with ⟨_, _, v, hv, _⟩ | ⟨_, _, hd2⟩
      · rw [hv]
        rfl
      · exact hd2
    · rcases hbr with ⟨_, hc, _⟩ | ⟨_, hc, _⟩
      · exact hc
      · rcases hc with ⟨s, hc⟩ | hc <;> rw [hc] <;> rfl

/-- Witness for C6 at concrete inputs: a number, a dict with an explicit
error, and a plain dict. -/
theorem coerce_total_witness :
    _coerce_agent_json (JVal.num 5) =
      JVal.obj [("error", JVal.str "invalid_json_type"),
                ("detail", JVal.str "int")] ∧
    _coerce_agent_json (JVal.obj [("error", JVal.str "boom")]) =
      JVal.obj [("error", JVal.str "boom")] ∧
    (∃ e : JObj, _coerce_agent_json (JVal.obj [("x", JVal.num 1)]) = JVal.obj e ∧
      (∃ xs, jlookup e "plan" = some (JVal.arr xs)) ∧
      (jlookup e "action" = some (JVal.str "answer") ∨
        jlookup e "action" = some (JVal.str "command")) ∧
      (∃ b, jlookup e "expose_to_user" = some (JVal.bool b)) ∧
      (jlookup e "data").isSome = true ∧
      (jlookup e "command").isSome = true) :=
  ⟨(coerce_total (JVal.num 5)).1 rfl,
   (coerce_total (JVal.obj [("error", JVal.str "boom")])).2.1 _ rfl rfl,
   (coerce_total (JVal.obj [("x", JVal.num 1)])).2.2 _ rfl rfl⟩

/-- Claim C7: `_coerce_agent_json` is idempotent on every dict input:
normalizing its own output changes nothing. -/
theorem coerce_idempotent (d : JObj) :
    _coerce_agent_json (_coerce_agent_json (JVal.obj d)) =
      _coerce_agent_json (JVal.obj d) := by
  by_cases herr : (jlookup d "error").isSome = true
  · have h1 : _coerce_agent_json (JVal.obj d) = JVal.obj d := by
      simp [_coerce_agent_json, herr]
    rw [h1, h1]
  · have herr2 : (jlookup d "error").isSome = false := by
      cases h2 : (jlookup d "error").isSome
      · rfl
      · exact absurd h2 herr
    rw [coerce_obj_eq d herr2]
    exact coerce_canon_fix _ (coerce_canon d (isSome_false_eq_none herr2))

/-- Claim C8: when `action` is not exactly `answer` or `command`, the
normalized action is `command` exactly when the original `command` value
is a non-blank string, and `answer` otherwise; in particular a lone
`command` field infers `command` and the empty dict infers `answer`. -/
theorem coerce_action_inference :
    (∀ d : JObj, (jlookup d "error").isSome = false →
      actionValid (jlookup d "action") = false →
      jfield (_coerce_agent_json (JVal.obj d)) "action" =
        some (JVal.str
          (if cmdNonblank (jlookup d "command") then "command" else "answer"))) ∧
    jfield (_coerce_agent_json (JVal.obj [("command", JVal.str "dir")])) "action" =
      some (JVal.str "command") ∧
    jfield (_coerce_agent_json (JVal.obj ([] : JObj))) "action" =
      some (JVal.str "answer") := by
  refine ⟨?_, rfl, rfl⟩
  intro d herr hinv
  rw [coerce_obj_eq d herr]
  show jlookup (coerceBranch d (preChain d)) "action" = _
  have hbr : ∀ w, jlookup (coerceBranch d w) "action" = jlookup w "action" := by
    intro w
    unfold coerceBranch
    split
    · split
      · rw [jlookup_jsetdefault_ne _ _ _ _ (by decide)]
      · rw [jlookup_jsetdefault_ne _ _ _ _ (by decide),
          jlookup_jset_ne _ _ _ _ (by decide)]
    · split
      · rw [jlookup_jsetdefault_ne _ _ _ _ (by decide),
          jlookup_jset_ne _ _ _ _ (by decide)]
      · rw [jlookup_jsetdefault_ne _ _ _ _ (by decide)]
  rw [hbr]
  unfold preChain
  rw [jlookup_coerceExpose_ne _ _ (by decide)]
  have hval : actionValid (jlookup (coercePlan d) "action") = false := by
    rw [jlookup_coercePlan_ne _ _ (by decide)]
    exact hinv
  have hcmd : jlookup (coercePlan d) "command" = jlookup d "command" :=
    jlookup_coercePlan_ne _ _ (by decide)
  unfold inferAction
  rw [if_neg (by rw [hval]; exact Bool.false_ne_true), hcmd]
  by_cases hc : cmdNonblank (jlookup d "command") = true
  · rw [if_pos hc, hc, jlookup_jset_self]
    rfl
  · have hc2 : cmdNonblank (jlookup d "command") = false := by
      cases h2 : cmdNonblank (jlookup d "command")
      · rfl
      · exact absurd h2 hc
    rw [if_neg (by rw [hc2]; exact Bool.false_ne_true), hc2, jlookup_jset_self]
    rfl

/-- Witness for C8 at a concrete input with a wrong-typed action. -/
theorem coerce_action_inference_witness :
    jfield (_coerce_agent_json (JVal.obj [("action", JVal.num 5),
        ("command", JVal.str "ls")])) "action" = some (JVal.str "command") :=
  coerce_action_inference.1 [("action", JVal.num 5), ("command", JVal.str "ls")] rfl rfl

/-- Counterexample to claim C1 as stated: on
`{"action": "answer", "command": "dir"}` the resolved action is Answer,
yet the normalized `command` keeps the value `"dir"` instead of being set
to null. -/
theorem coerce_answer_keeps_command :
    jfield (_coerce_agent_json (JVal.obj [("action", JVal.str "answer"),
        ("command", JVal.str "dir")])) "action" = some (JVal.str "answer") ∧
    jfield (_coerce_agent_json (JVal.obj [("action", JVal.str "answer"),
        ("command", JVal.str "dir")])) "command" = some (JVal.str "dir") ∧
    ¬ some (JVal.str "dir") = some JVal.null := by
  refine ⟨rfl, rfl, ?_⟩
  intro h
  injection h with h2
  exact JVal.noConfusion h2

/-- Claim C1 amended: when the resolved action is Answer, `command` is
set to null only when the source dict carries no `command` key; an
existing `command` entry is preserved unchanged (setdefault semantics). -/
theorem coerce_answer_command_setdefault (d : JObj)
    (herr : (jlookup d "error").isSome = false)
    (hans : isStrEq (jlookup (preChain d) "action") "command" = false) :
    jfield (_coerce_agent_json (JVal.obj d)) "command" =
      some ((jlookup d "command").getD JVal.null) := by
  rw [coerce_obj_eq d herr]
  show jlookup (coerceBranch d (preChain d)) "command" = _
  unfold coerceBranch
  rw [if_neg (by rw [hans]; exact Bool.false_ne_true)]
  have hcmd : jlookup (preChain d) "command" = jlookup d "command" :=
    jlookup_preChain_ne d "command" (by decide) (by decide) (by decide)
  split
  · rw [jlookup_jsetdefault_self, jlookup_jset_ne _ _ _ _ (by decide), hcmd]
  · rw [jlookup_jsetdefault_self, hcmd]

/-- Witness for the amended C1: an explicit Answer decision carrying a
command value keeps that value. -/
theorem coerce_answer_command_setdefault_witness :
    jfield (_coerce_agent_json (JVal.obj [("action", JVal.str "answer"),
        ("command", JVal.str "dir")])) "command" =
      some ((jlookup [("action", JVal.str "answer"),
        ("command", JVal.str "dir")] "command").getD JVal.null) :=
  coerce_answer_command_setdefault
    [("action", JVal.str "answer"), ("command", JVal.str "dir")] rfl rfl

/-! ### The command runner -/

theorem mem_of_listContainsSub (sub : List Char) (s : List Char)
    (h : listContainsSub sub s = true) : ∀ c ∈ sub, c ∈ s := by
  induction s with
  | nil =>
    intro c hc
    cases sub with
    | nil => simp at hc
    | cons a rest => simp [listContainsSub, List.isEmpty] at h
  | cons a rest ih =>
    intro c hc
    simp only [listContainsSub, Bool.or_eq_true] at h
    rcases h with h | h
    · have hp : sub <+: (a :: rest) := List.isPrefixOf_iff_prefix.mp h
      exact hp.subset hc
    · exact List.mem_cons_of_mem a (ih h c hc)

theorem whitespace_only_safe (s : String) (hws : strip_nonempty s = false)
    (hne : ¬ s.length = 0) (hlen : ¬ 200 < s.length) :
    is_safe_command (some s) = true := by
  simp only [is_safe_command]
  rw [if_neg (not_or.mpr ⟨hne, hlen⟩)]
  have hall : ∀ c ∈ s.data, isPySpace c = true := by
    intro c hc
    cases hcs : isPySpace c with
    | true => rfl
    | false =>
      have hany : s.data.any (fun c => !(isPySpace c)) = true :=
        List.any_eq_true.mpr ⟨c, hc, by rw [hcs]; rfl⟩
      rw [show s.data.any (fun c => !(isPySpace c)) = strip_nonempty s from rfl, hws]
        at hany
      exact Bool.noConfusion hany
  have hanyf : bannedList.any (fun b => listContainsSub b.data s.data) = false := by
    rw [List.any_eq_false]
    intro b hb hsub
    have hnsp : ∃ c ∈ b.data, isPySpace c = false := by
      fin_cases hb <;> decide
    obtain ⟨c, hcb, hcs⟩ := hnsp
    have := hall c (mem_of_listContainsSub b.data s.data hsub c hcb)
    rw [this] at hcs
    exact Bool.noConfusion hcs
  rw [hanyf]
  rfl

/-- Counterexample to claim C2 as stated: an absent command and the empty
command are rejected with reason `unsafe command` (the safety check runs
first), not `missing command`. -/
theorem execute_command_blank_counterexample :
    execute_command stubRun none =
      JVal.obj [("status", JVal.str "rejected"), ("reason", JVal.str "unsafe command")] ∧
    execute_command stubRun (some "") =
      JVal.obj [("status", JVal.str "rejected"), ("reason", JVal.str "unsafe command")] ∧
    ¬ JVal.str "unsafe command" = JVal.str "missing command" := by
  refine ⟨rfl, rfl, ?_⟩
  intro h
  injection h with h2
  exact absurd h2 (by decide)

/-- Claim C2 amended: an absent or empty command is rejected with reason
`unsafe command` (the safety gate fires first); a whitespace-only,
non-empty command of accepted length is rejected with reason
`missing command`; in either situation the result does not depend on the
process backend, so no process is launched. -/
theorem execute_command_blank (run run2 : String → RunOutcome) :
    (∀ cmd : Option String, cmd = none ∨ cmd = some "" →
      execute_command run cmd =
        JVal.obj [("status", JVal.str "rejected"), ("reason", JVal.str "unsafe command")]) ∧
    (∀ s : String, ¬ s.length = 0 → ¬ 200 < s.length → strip_nonempty s = false →
      execute_command run (some s) =
        JVal.obj [("status", JVal.str "rejected"), ("reason", JVal.str "missing command")]) ∧
    (∀ cmd : Option String, (∀ s, cmd = some s → strip_nonempty s = false) →
      execute_command run cmd = execute_command run2 cmd) := by
  refine ⟨?_, ?_, ?_⟩
  · rintro cmd (rfl | rfl) <;> rfl
  · intro s hne hlen hws
    have hsafe := whitespace_only_safe s hws hne hlen
    simp [execute_command, hsafe, hws]
  · intro cmd hws
    cases cmd with
    | none => rfl
    | some s =>
      have hw := hws s rfl
      cases hsafe : is_safe_command (some s) with
      | false => simp [execute_command, hsafe]
      | true => simp [execute_command, hsafe, hw]

/-- Witness for the amended C2 at concrete inputs. -/
theorem execute_command_blank_witness :
    execute_command stubRun (some "") =
      JVal.obj [("status", JVal.str "rejected"), ("reason", JVal.str "unsafe command")] ∧
    execute_command stubRun (some " ") =
      JVal.obj [("status", JVal.str "rejected"), ("reason", JVal.str "missing command")] := by
  constructor
  · exact (execute_command_blank stubRun stubRun).1 (some "") (Or.inr rfl)
  · exact (execute_command_blank stubRun stubRun).2.1 " " (by decide) (by decide) (by decide)

/-! ### The retry loop -/

theorem askModelLoop_succ (loads : List Char → Except String JVal)
    (gen : Nat → List Char) (n i : Nat) (le : Option String) :
    askModelLoop loads gen (n + 1) i le =
      match attemptOutcome loads (gen i) with
      | .ok v => v
      | .error e => askModelLoop loads gen n (i + 1) (some e) := by
  have h : askModelLoop loads gen (n + 1) i le =
      match loads (gen i) with
      | .ok v => v
      | .error e =>
        match extract_json_from_text loads (gen i) with
        | some v => v
        | none => askModelLoop loads gen n (i + 1) (some e) := rfl
  rw [h]
  unfold attemptOutcome
  cases hl : loads (gen i) with
  | ok v => rfl
  | error e =>
    cases he : extract_json_from_text loads (gen i) with
    | some v => rfl
    | none => rfl

/-- Claim C5: `ask_model` with the default bound of 3 issues at most 3
generator attempts (the result depends only on the first three raw
outputs), returns the first attempt whose raw text parses directly or
yields a value through the extractor fallback, and when all 3 attempts
fail returns the `invalid_json` error whose detail is the direct-parse
failure reason of the last attempt. -/
theorem ask_model_retry (loads : List Char → Except String JVal)
    (gen : Nat → List Char) :
    (∀ v, attemptOutcome loads (gen 0) = Except.ok v → ask_model loads gen 3 = v) ∧
    (∀ e0 v, attemptOutcome loads (gen 0) = Except.error e0 →
      attemptOutcome loads (gen 1) = Except.ok v → ask_model loads gen 3 = v) ∧
    (∀ e0 e1 v, attemptOutcome loads (gen 0) = Except.error e0 →
      attemptOutcome loads (gen 1) = Except.error e1 →
      attemptOutcome loads (gen 2) = Except.ok v → ask_model loads gen 3 = v) ∧
    (∀ e0 e1 e2, attemptOutcome loads (gen 0) = Except.error e0 →
      attemptOutcome loads (gen 1) = Except.error e1 →
      attemptOutcome loads (gen 2) = Except.error e2 →
      ask_model loads gen 3 =
        JVal.obj [("error", JVal.str "invalid_json"), ("detail", JVal.str e2)]) ∧
    (∀ gen2 : Nat → List Char, (∀ i, i < 3 → gen i = gen2 i) →
      ask_model loads gen 3 = ask_model loads gen2 3) := by
  refine ⟨?_, ?_, ?_, ?_, ?_⟩
  · intro v h0
    show askModelLoop loads gen (2 + 1) 0 none = v
    rw [askModelLoop_succ, h0]
  · intro e0 v h0 h1
    show askModelLoop loads gen (2 + 1) 0 none = v
    rw [askModelLoop_succ, h0]
    show askModelLoop loads gen (1 + 1) 1 (some e0) = v
    rw [askModelLoop_succ, h1]
  · intro e0 e1 v h0 h1 h2
    show askModelLoop loads gen (2 + 1) 0 none = v
    rw [askModelLoop_succ, h0]
    show askModelLoop loads gen (1 + 1) 1 (some e0) = v
    rw [askModelLoop_succ, h1]
    show askModelLoop loads gen (0 + 1) 2 (some e1) = v
    rw [askModelLoop_succ, h2]
  · intro e0 e1 e2 h0 h1 h2
    show askModelLoop loads gen (2 + 1) 0 none = _
    rw [askModelLoop_succ, h0]
    show askModelLoop loads gen (1 + 1) 1 (some e0) = _
    rw [askModelLoop_succ, h1]
    show askModelLoop loads gen (0 + 1) 2 (some e1) = _
    rw [askModelLoop_succ, h2]
    rfl
  · intro gen2 hg
    have g0 : gen 0 = gen2 0 := hg 0 (by omega)
    have g1 : gen 1 = gen2 1 := hg 1 (by omega)
    have g2 : gen 2 = gen2 2 := hg 2 (by omega)
    show askModelLoop loads gen (2 + 1) 0 none = askModelLoop loads gen2 (2 + 1) 0 none
    rw [askModelLoop_succ loads gen, askModelLoop_succ loads gen2, g0]
    cases h0 : attemptOutcome loads (gen2 0) with
    | ok v => rfl
    | error e =>
      show askModelLoop loads gen (1 + 1) 1 (some e) =
        askModelLoop loads gen2 (1 + 1) 1 (some e)
      rw [askModelLoop_succ loads gen, askModelLoop_succ loads gen2, g1]
      cases h1 : attemptOutcome loads (gen2 1) with
      | ok v => rfl
      | error e1 =>
        show askModelLoop loads gen (0 + 1) 2 (some e1) =
          askModelLoop loads gen2 (0 + 1) 2 (some e1)
        rw [askModelLoop_succ loads gen, askModelLoop_succ loads gen2, g2]
        cases h2 : attemptOutcome loads (gen2 2) with
        | ok v => rfl
        | error e2 => rfl

/-- Witness for C5: a generator that succeeds on its second attempt via a
direct parse, and a generator whose outputs never parse. -/
theorem ask_model_retry_witness :
    ask_model toyLoads genSecondTry 3 = JVal.obj [] ∧
    ask_model toyLoads genGarbage 3 =
      JVal.obj [("error", JVal.str "invalid_json"),
                ("detail", JVal.str "Expecting value")] := by
  constructor
  · exact (ask_model_retry toyLoads genSecondTry).2.1 "Expecting value" (JVal.obj [])
      rfl rfl
  · exact (ask_model_retry toyLoads genGarbage).2.2.2.1 "Expecting value"
      "Expecting value" "Expecting value" rfl rfl rfl

/-! ### The result envelope -/

theorem process_agent_output_eq (run : String → RunOutcome) (j : JVal) (d : JObj)
    (hc : _coerce_agent_json j = JVal.obj d) :
    process_agent_output run j =
      if (jlookup d "error").isSome then JVal.obj d
      else if isStrEq (jlookup d "action") "command" then
        JVal.obj ([("plan", (jlookup d "plan").getD JVal.null),
                   ("expose_to_user", (jlookup d "expose_to_user").getD (JVal.bool false))] ++
          [("execution",
            execute_command run (asOptStr ((jlookup d "command").getD JVal.null)))])
      else if isStrEq (jlookup d "action") "answer" then
        JVal.obj ([("plan", (jlookup d "plan").getD JVal.null),
                   ("expose_to_user", (jlookup d "expose_to_user").getD (JVal.bool false))] ++
          [("data", (jlookup d "data").getD JVal.null)])
      else
        JVal.obj [("plan", (jlookup d "plan").getD JVal.null),
                  ("expose_to_user", (jlookup d "expose_to_user").getD (JVal.bool false))] := by
  unfold process_agent_output
  rw [hc]

/-- Claim C10: on every input whose normalized decision carries no error
key, the envelope of `process_agent_output` is an object with a `plan`
sequence and a boolean `expose_to_user`, containing `execution` exactly
when the normalized action is `command` and `data` exactly when it is
`answer`, never both. -/
theorem envelope_shape (run : String → RunOutcome) (j : JVal) (d : JObj)
    (hc : _coerce_agent_json j = JVal.obj d)
    (herr : (jlookup d "error").isSome = false) :
    ∃ r : JObj, process_agent_output run j = JVal.obj r ∧
      (∃ xs, jlookup r "plan" = some (JVal.arr xs)) ∧
      (∃ b, jlookup r "expose_to_user" = some (JVal.bool b)) ∧
      ((jlookup r "execution").isSome = true ↔
        jlookup d "action" = some (JVal.str "command")) ∧
      ((jlookup r "data").isSome = true ↔
        jlookup d "action" = some (JVal.str "answer")) ∧
      ¬ ((jlookup r "execution").isSome = true ∧ (jlookup r "data").isSome = true) := by
  have hshape : (∃ xs, jlookup d "plan" = some (JVal.arr xs)) ∧
      (jlookup d "action" = some (JVal.str "answer") ∨
        jlookup d "action" = some (JVal.str "command")) ∧
      (∃ b, jlookup d "expose_to_user" = some (JVal.bool b)) := by
    cases j with
    | obj d0 =>
      by_cases h0 : (jlookup d0 "error").isSome = true
      · have hco : _coerce_agent_json (JVal.obj d0) = JVal.obj d0 := by
          simp [_coerce_agent_json, h0]
        rw [hco] at hc
        injection hc with hdd
        subst hdd
        rw [herr] at h0
        exact Bool.noConfusion h0
      · have h0f : (jlookup d0 "error").isSome = false := by
          cases hx : (jlookup d0 "error").isSome
          · rfl
          · exact absurd hx h0
        rw [coerce_obj_eq d0 h0f] at hc
        injection hc with hdd
        obtain ⟨he, hp, hxp, hbr⟩ := coerce_canon d0 (isSome_false_eq_none h0f)
        subst hdd
        refine ⟨hp, ?_, hxp⟩
        rcases hbr with ⟨ha, _⟩ | ⟨ha, _⟩
        · exact Or.inl ha
        · exact Or.inr ha
    | null =>
      simp only [_coerce_agent_json] at hc
      injection hc with hdd
      subst hdd
      simp [jlookup] at herr
    | bool b0 =>
      simp only [_coerce_agent_json] at hc
      injection hc with hdd
      subst hdd
      simp [jlookup] at herr
    | num n0 =>
      simp only [_coerce_agent_json] at hc
      injection hc with hdd
      subst hdd
      simp [jlookup] at herr
    | str s0 =>
      simp only [_coerce_agent_json] at hc
      injection hc with hdd
      subst hdd
      simp [jlookup] at herr
    | arr xs0 =>
      simp only [_coerce_agent_json] at hc
      injection hc with hdd
      subst hdd
      simp [jlookup] at herr
  obtain ⟨⟨xs, hplan⟩, hact, ⟨b, hexp⟩⟩ := hshape
  rcases hact with hact | hact
  · -- action is "answer"
    have hpro : process_agent_output run j =
        JVal.obj [("plan", JVal.arr xs), ("expose_to_user", JVal.bool b),
                  ("data", (jlookup d "data").getD JVal.null)] := by
      rw [process_agent_output_eq run j d hc,
        if_neg (by rw [herr]; exact Bool.false_ne_true), hact,
        if_neg (by decide), if_pos (by decide), hplan, hexp]
      rfl
    have hre : jlookup [("plan", JVal.arr xs), ("expose_to_user", JVal.bool b),
        ("data", (jlookup d "data").getD JVal.null)] "execution" = none := rfl
    have hrd : jlookup [("plan", JVal.arr xs), ("expose_to_user", JVal.bool b),
        ("data", (jlookup d "data").getD JVal.null)] "data" =
        some ((jlookup d "data").getD JVal.null) := rfl
    refine ⟨_, hpro, ⟨xs, rfl⟩, ⟨b, rfl⟩, ?_, ?_, ?_⟩
    · constructor
      · intro h
        rw [hre] at h
        exact Bool.noConfusion h
      · intro hx
        rw [hact] at hx
        injection hx with h1
        injection h1 with h2
        exact absurd h2 (by decide)
    · constructor
      · intro _
        exact hact
      · intro _
        rw [hrd]
        rfl
    · rintro ⟨hx, _⟩
      rw [hre] at hx
      exact Bool.noConfusion hx
  · -- action is "command"
    have hpro : process_agent_output run j =
        JVal.obj [("plan", JVal.arr xs), ("expose_to_user", JVal.bool b),
          ("execution",
            execute_command run (asOptStr ((jlookup d "command").getD JVal.null)))] := by
      rw [process_agent_output_eq run j d hc,
        if_neg (by rw [herr]; exact Bool.false_ne_true), hact,
        if_pos (by decide), hplan, hexp]
      rfl
    have hre : jlookup [("plan", JVal.arr xs), ("expose_to_user", JVal.bool b),
        ("execution",
          execute_command run (asOptStr ((jlookup d "command").getD JVal.null)))]
        "execution" =
        some (execute_command run (asOptStr ((jlookup d "command").getD JVal.null))) := rfl
    have hrd : jlookup [("plan", JVal.arr xs), ("expose_to_user", JVal.bool b),
        ("execution",
          execute_command run (asOptStr ((jlookup d "command").getD JVal.null)))]
        "data" = none := rfl
    refine ⟨_, hpro, ⟨xs, rfl⟩, ⟨b, rfl⟩, ?_, ?_, ?_⟩
    · constructor
      · intro _
        exact hact
      · intro _
        rw [hre]
        rfl
    · constructor
      · intro h
        rw [hrd] at h
        exact Bool.noConfusion h
      · intro hx
        rw [hact] at hx
        injection hx with h1
        injection h1 with h2
        exact absurd h2 (by decide)
    · rintro ⟨_, hx⟩
      rw [hrd] at hx
      exact Bool.noConfusion hx

/-- Witness for C10 at a concrete input: the dict with a single
non-schema field normalizes to an Answer decision and yields a
data-carrying envelope. -/
theorem envelope_shape_witness :
    ∃ r : JObj, process_agent_output stubRun (JVal.obj [("x", JVal.num 1)]) = JVal.obj r ∧
      (∃ xs, jlookup r "plan" = some (JVal.arr xs)) ∧
      (∃ b, jlookup r "expose_to_user" = some (JVal.bool b)) ∧
      ((jlookup r "execution").isSome = true ↔
        jlookup [("x", JVal.num 1), ("plan", JVal.arr []),
          ("action", JVal.str "answer"), ("expose_to_user", JVal.bool true),
          ("data", JVal.obj [("x", JVal.num 1)]), ("command", JVal.null)] "action" =
          some (JVal.str "command")) ∧
      ((jlookup r "data").isSome = true ↔
        jlookup [("x", JVal.num 1), ("plan", JVal.arr []),
          ("action", JVal.str "answer"), ("expose_to_user", JVal.bool true),
          ("data", JVal.obj [("x", JVal.num 1)]), ("command", JVal.null)] "action" =
          some (JVal.str "answer")) ∧
      ¬ ((jlookup r "execution").isSome = true ∧ (jlookup r "data").isSome = true) :=
  envelope_shape stubRun (JVal.obj [("x", JVal.num 1)])
    [("x", JVal.num 1), ("plan", JVal.arr []), ("action", JVal.str "answer"),
     ("expose_to_user", JVal.bool true), ("data", JVal.obj [("x", JVal.num 1)]),
     ("command", JVal.null)] rfl rfl
